import Mathlib

/-!
Verification of the Takumi Smart Resolver (`scripts/smart_resolver.py`), a
dependency-resolution agent for plugin components.  The Python source is
shallowly embedded below: pure helpers become Lean functions, the installer
subprocess and the telemetry transport become boolean oracles, the filesystem
becomes an explicit directory tree, and the agent's mutable fields become an
explicit `Agent` record threaded through the phases.
-/

namespace SmartResolver

/-! ### Utils (smart_resolver.py lines 33-44) -/

/-- Python `str.strip()` on the underlying character list: drop whitespace from
both ends. -/
def stripChars (l : List Char) : List Char :=
  ((l.dropWhile Char.isWhitespace).reverse.dropWhile Char.isWhitespace).reverse

/-- Python `str.strip()`. -/
def pyStrip (s : String) : String :=
  String.mk (stripChars s.data)

/-- Python `str.lower()`. -/
def pyLower (s : String) : String :=
  String.mk (s.data.map Char.toLower)

/-- Python `str.replace("-", "_")`: the pattern is a single character, so the
replacement is a character map. -/
def pyReplaceDash (s : String) : String :=
  String.mk (s.data.map (fun c => if c = '-' then '_' else c))

/-- `Utils.normalize_name`: `name.strip().lower().replace("-", "_")`. -/
def normalize_name (name : String) : String :=
  pyReplaceDash (pyLower (pyStrip name))

/-- The character class of `re.split(r'[<>=!\[;]', ...)`: the characters at
which a requirement string is cut. -/
def isSplitChar (c : Char) : Bool :=
  c = '<' || c = '>' || c = '=' || c = '!' || c = '[' || c = ';'

/-- `parts[0]` of the `re.split` call: the prefix of the string before the
first split character (the whole string when none occurs). -/
def firstPart (s : String) : String :=
  String.mk (s.data.takeWhile (fun c => !isSplitChar c))

/-- `Utils.get_package_name`: strip the input, cut at the first of
`< > = ! [ ;`, then normalize. -/
def get_package_name (req : String) : String :=
  normalize_name (firstPart (pyStrip req))

/-! ### Conflict matrix (smart_resolver.py lines 207-246) -/

/-- One entry of the knowledge base's `conflict_matrix`.  The `description`
field is only printed by the Python code, so it is not modelled. -/
structure ConflictRule where
  trigger : List String
  ban : List String
deriving Repr, DecidableEq

/-- `not triggers.isdisjoint(active_packages)`: some trigger of the rule is
among the active canonical names. -/
def ruleFires (active : List String) (rule : ConflictRule) : Bool :=
  rule.trigger.any (fun t => active.contains t)

/-- The loop of `apply_conflict_matrix` step 2: fold over the matrix in order,
accumulating the `ban` entries of every rule that fires. -/
def banList (matrix : List ConflictRule) (active : List String) : List String :=
  matrix.foldl (fun acc rule => if ruleFires active rule then acc ++ rule.ban else acc) []

/-- `DependencyAgent.apply_conflict_matrix`: with an empty matrix the input is
returned unchanged; otherwise the canonical names are collected, the ban list
is accumulated from the fired rules, and every requirement whose canonical
name is on the ban list is purged. -/
def apply_conflict_matrix (matrix : List ConflictRule) (requirements : List String) :
    List String :=
  if matrix.isEmpty then requirements
  else
    let active := requirements.map get_package_name
    let bans := banList matrix active
    requirements.filter (fun r => !bans.contains (get_package_name r))

/-! ### Knowledge base (smart_resolver.py lines 71-89) -/

/-- One entry of `node_specific_rules`: the optional fields mirror the
`"extra_files" in rule` / `"inject" in rule` key-presence checks. -/
structure NodeRule where
  extra_files : Option (List String)
  inject : Option (List String)
deriving Repr, DecidableEq

/-- One entry of `strategies`: fields accessed with `.get`, so all optional;
`enabled` is used only for its truthiness. -/
structure StrategyConfig where
  enabled : Bool
  modern_constraints : Option (List String)
  override_packages : Option (List String)
deriving Repr, DecidableEq

/-- The three collections a `KnowledgeBase` instance holds. -/
structure KB where
  node_rules : List (String × NodeRule)
  strategies : List (String × StrategyConfig)
  conflict_matrix : List ConflictRule
deriving Repr, DecidableEq

/-- The possible states of the rules file at `Config.RULES_PATH`: missing,
present but not parseable as JSON, or parsed with the three collections
(each already defaulted to empty by `data.get` when its key is missing). -/
inductive RulesFile where
  | absent
  | malformed
  | valid (node_rules : List (String × NodeRule))
      (strategies : List (String × StrategyConfig))
      (conflict_matrix : List ConflictRule)

/-- `KnowledgeBase._load`: an absent file is skipped silently, a malformed
file is caught by the `except` clause which prints a warning, and in both
cases the collections keep their empty initial values.  The returned `Bool`
records whether the warning line was printed. -/
def KnowledgeBase_load : RulesFile → KB × Bool
  | .absent => (⟨[], [], []⟩, false)
  | .malformed => (⟨[], [], []⟩, true)
  | .valid nr st cm => (⟨nr, st, cm⟩, false)

/-- Python `dict.get(key)` on an insertion-ordered association list. -/
def dictGet {α : Type} (m : List (String × α)) (k : String) : Option α :=
  (m.find? (fun kv => kv.1 = k)).map (fun kv => kv.2)

/-- Python `dict[key] = value`: overwrite in place when the key exists
(keeping its position), otherwise append. -/
def dictSet (m : List (String × List String)) (k : String) (v : List String) :
    List (String × List String) :=
  if m.any (fun kv => kv.1 = k) then m.map (fun kv => if kv.1 = k then (k, v) else kv)
  else m ++ [(k, v)]

/-! ### The filesystem under `Config.CUSTOM_NODES_PATH` and `os.walk` -/

/-- A regular file: its basename and its lines (newlines already split off). -/
structure FileEntry where
  name : String
  lines : List String
deriving Repr, DecidableEq

/-- A directory: its basename, its regular files and its subdirectories. -/
inductive Dir where
  | mk (name : String) (files : List FileEntry) (subdirs : List Dir)

/-- Basename of a directory. -/
def Dir.name : Dir → String
  | .mk n _ _ => n

/-- Immediate subdirectories of a directory. -/
def Dir.subdirs : Dir → List Dir
  | .mk _ _ ds => ds

/-- `os.walk` (top-down): yield `(basename, files)` for the root itself, then
recursively for every subdirectory, in listing order. -/
def Dir.walk : Dir → List (String × List FileEntry)
  | .mk n fs ds => (n, fs) :: (ds.attach.map (fun d => Dir.walk d.1)).flatten
decreasing_by
  have h := List.sizeOf_lt_of_mem d.2
  simp only [Dir.mk.sizeOf_spec]
  omega

/-- `str.startswith('.')`. -/
def startsWithDot (s : String) : Bool :=
  match s.data with
  | c :: _ => c = '.'
  | [] => false

/-- `str.startswith('#')`. -/
def startsWithHash (s : String) : Bool :=
  match s.data with
  | c :: _ => c = '#'
  | [] => false

/-- The list comprehension of the file scan:
`[line.strip() for line in f if line.strip() and not line.startswith('#')]`.
Note the comment check runs on the un-stripped line. -/
def readDepsLines (lines : List String) : List String :=
  (lines.filter (fun l => !(stripChars l.data).isEmpty && !startsWithHash l)).map pyStrip

/-! ### Agent state (smart_resolver.py lines 91-98) -/

/-- One recorded trial.  `duration` and `log_snippet` are wall-clock time and
subprocess output, outside the model. -/
structure Trial where
  strategy : String
  success : Bool
deriving Repr, DecidableEq

/-- The mutable fields of `DependencyAgent` that the claims are about.
`session_id` and `timestamp` are fresh random/clock values, outside the
model. -/
structure Agent where
  kb : KB
  input_manifest : List (String × List String)
  trials : List Trial
  status : String
deriving Repr, DecidableEq

/-- `DependencyAgent.__init__`: load the knowledge base, start with an empty
manifest, no trials, and status `"pending"`. -/
def initAgent (file : RulesFile) : Agent :=
  ⟨(KnowledgeBase_load file).1, [], [], "pending"⟩

/-! ### Manifest scan (smart_resolver.py lines 100-138) -/

/-- The per-directory body of the `os.walk` loop: look up a node rule, build
`target_files` (the standard `requirements.txt` plus any `extra_files`), start
`node_deps` from the rule's `inject` list, then extend it with the parsed
lines of each target file present in the directory. -/
def scanNodeDeps (node_rules : List (String × NodeRule)) (node : String × List FileEntry) :
    List String :=
  let rule := dictGet node_rules node.1
  let target_files := "requirements.txt" :: ((rule.bind (fun r => r.extra_files)).getD [])
  let injected := (rule.bind (fun r => r.inject)).getD []
  injected ++ target_files.flatMap (fun fn =>
    match node.2.find? (fun fe => fe.name = fn) with
    | some fe => readDepsLines fe.lines
    | none => [])

/-- The body of the `os.walk` loop of `scan_environment`: `continue` on a
basename starting with `.`, collect the directory's dependencies, and record
them under the basename only when non-empty. -/
def scanStep (node_rules : List (String × NodeRule)) (m : List (String × List String))
    (node : String × List FileEntry) : List (String × List String) :=
  if startsWithDot node.1 then m
  else if (scanNodeDeps node_rules node).isEmpty then m
  else dictSet m node.1 (scanNodeDeps node_rules node)

/-- `DependencyAgent.scan_environment`: if the component root is missing,
return unchanged; otherwise run the loop body over the recursive walk. -/
def scan_environment (a : Agent) (env : Option Dir) : Agent :=
  match env with
  | none => a
  | some root =>
      { a with input_manifest := root.walk.foldl (scanStep a.kb.node_rules) a.input_manifest }

/-! ### Strategy execution (smart_resolver.py lines 140-205) -/

/-- Python truthiness of the `override_packages` argument. -/
def overridesTruthy : Option (List String) → Bool
  | none => false
  | some l => !l.isEmpty

/-- The manifest merge loop of `execute_strategy`: concatenate every
component's requirements in manifest order, skipping a requirement only when
`override_packages` is truthy and the requirement's canonical name is among
the normalized overrides. -/
def merge_manifest (manifest : List (String × List String))
    (override_packages : Option (List String)) : List String :=
  let normalized_overrides := (override_packages.getD []).map normalize_name
  manifest.flatMap (fun kv => kv.2.filter (fun req =>
    !(overridesTruthy override_packages && normalized_overrides.contains (get_package_name req))))

/-- The requirement list `execute_strategy` writes to the temp file: manifest
merge, then conflict-matrix purge, then the constraints appended when truthy. -/
def build_final_reqs (matrix : List ConflictRule) (manifest : List (String × List String))
    (constraints override_packages : Option (List String)) : List String :=
  let reqs := apply_conflict_matrix matrix (merge_manifest manifest override_packages)
  match constraints with
  | some cs => if !cs.isEmpty then reqs ++ cs else reqs
  | none => reqs

/-- `DependencyAgent.execute_strategy`: build the final requirement list, run
the installer (`uv pip install`, modelled as the oracle `install` deciding
the subprocess's success), and append exactly one trial recording the
outcome.  Returns the updated agent and the success flag. -/
def execute_strategy (install : List String → Bool) (a : Agent) (strategy_name : String)
    (constraints override_packages : Option (List String)) : Agent × Bool :=
  let final_reqs := build_final_reqs a.kb.conflict_matrix a.input_manifest constraints
    override_packages
  let ok := install final_reqs
  ({ a with trials := a.trials ++ [⟨strategy_name, ok⟩] }, ok)

/-- The `{}` default of `self.kb.strategies.get("dictator_mode", {})`. -/
def defaultStrategyConfig : StrategyConfig := ⟨false, none, none⟩

/-- `DependencyAgent.solve`: try `naive_merge` first; on failure consult the
knowledge base's `dictator_mode` strategy and run it only when enabled; set
the status after the first success, or to `"failed"` when every attempted
strategy fails. -/
def solve (install : List String → Bool) (a : Agent) : Agent :=
  let r1 := execute_strategy install a "naive_merge" none none
  if r1.2 then { r1.1 with status := "success" }
  else
    let dictator_config := (dictGet a.kb.strategies "dictator_mode").getD defaultStrategyConfig
    if dictator_config.enabled then
      let r2 := execute_strategy install r1.1 "dictator_mode"
        dictator_config.modern_constraints dictator_config.override_packages
      if r2.2 then { r2.1 with status := "success" } else { r2.1 with status := "failed" }
    else { r1.1 with status := "failed" }

/-! ### Finalize (smart_resolver.py lines 46-69 and 248-316) -/

/-- The observable events of the finalize phase, in order. -/
inductive Event where
  | report (delivered : Bool)
  | exportRecipe
  | exitWith (code : Nat)
deriving Repr, DecidableEq

/-- `Telemetry.send`: the whole upload sits in `try/except`, so the call
returns normally whether the transport delivered (`true`) or raised
(`false`); the failure is only printed. -/
def Telemetry_send (transport : Bool) : Event := Event.report transport

/-- `DependencyAgent.finalize`: send telemetry first, then on status
`"success"` export the recipe and exit 0, otherwise exit 1. -/
def finalize (transport : Bool) (a : Agent) : List Event :=
  Telemetry_send transport ::
    (if a.status = "success" then [Event.exportRecipe, Event.exitWith 0]
     else [Event.exitWith 1])

/-- The `__main__` block as written: each of the three lines constructs a
fresh `DependencyAgent` and calls one phase on it.  Returns the agent that
`finalize` ran on, together with the finalize events. -/
def mainRun (install : List String → Bool) (transport : Bool) (file : RulesFile)
    (env : Option Dir) : Agent × List Event :=
  let _agent1 := scan_environment (initAgent file) env
  let _agent2 := solve install (initAgent file)
  let agent3 := initAgent file
  (agent3, finalize transport agent3)

/-- The complete session pipeline on a single agent: scan, then solve, then
finalize. -/
def sessionRun (install : List String → Bool) (transport : Bool) (file : RulesFile)
    (env : Option Dir) : Agent × List Event :=
  let a1 := scan_environment (initAgent file) env
  let a2 := solve install a1
  (a2, finalize transport a2)

/-! ### Definitions written from the spec's words, for refinement claims -/

/-- Spec 4.4 step 2: the rules whose trigger set intersects the active set of
canonical names of the input requirements. -/
def firedRules (matrix : List ConflictRule) (reqs : List String) : List ConflictRule :=
  matrix.filter (ruleFires (reqs.map get_package_name))

/-- Spec 4.4 step 2: the session ban-set, the union of the ban sets of all
fired rules. -/
def sessionBanSet (matrix : List ConflictRule) (reqs : List String) : List String :=
  (firedRules matrix reqs).flatMap (fun rule => rule.ban)

/-- Spec 4.4 step 3: remove exactly those requirements whose canonical name is
in the session ban-set. -/
def arbitrateSpec (matrix : List ConflictRule) (reqs : List String) : List String :=
  reqs.filter (fun r => !(sessionBanSet matrix reqs).contains (get_package_name r))

/-- Index of the first version-operator / extras / marker character in a
string (its length when none occurs). -/
def cutIndex (s : String) : Nat := s.data.findIdx isSplitChar

/-- The canonical name as the spec phrases it: the substring of the (stripped)
line preceding the first occurrence of one of the cut characters, lower-cased
with `-` normalized to `_`. -/
def canonicalNameSpec (req : String) : String :=
  normalize_name (String.mk ((pyStrip req).data.take (cutIndex (pyStrip req))))

/-- Whether a finalize-phase event is the telemetry report. -/
def isReport : Event → Bool
  | .report _ => true
  | _ => false

/-- Whether a finalize-phase event is the recipe export. -/
def isExport : Event → Bool
  | .exportRecipe => true
  | _ => false

/-- Whether a telemetry report occurs strictly after a recipe export in an
event trace. -/
def reportAfterExport (tr : List Event) : Bool :=
  ((tr.dropWhile (fun e => !isExport e)).drop 1).any isReport

/-- The exit codes occurring in an event trace. -/
def exitCodes (tr : List Event) : List Nat :=
  tr.filterMap (fun e => match e with | .exitWith c => some c | _ => none)

/-- The configured strategy priority order of `solve`: the implicit
`naive_merge` default first, then `dictator_mode` exactly when the knowledge
base enables it. -/
def strategyOrder (kb : KB) : List String :=
  "naive_merge" ::
    (if ((dictGet kb.strategies "dictator_mode").getD defaultStrategyConfig).enabled
     then ["dictator_mode"] else [])

/-! ### Example filesystem fixtures -/

/-- A component root whose only immediate subdirectory `NodeA` has no
declaration file, while its nested directory `inner` does. -/
def nestedTree : Dir :=
  .mk "custom_nodes" []
    [.mk "NodeA" [] [.mk "inner" [⟨"requirements.txt", ["foo"]⟩] []]]

/-- A component root whose only immediate subdirectory is hidden, with a
child directory carrying a declaration file. -/
def hiddenTree : Dir :=
  .mk "custom_nodes" []
    [.mk ".git" [] [.mk "sub" [⟨"requirements.txt", ["bar"]⟩] []]]

/-- A component root with one component that has a standard declaration file
and an extra file. -/
def ruleTree : Dir :=
  .mk "custom_nodes" []
    [.mk "NodeX" [⟨"requirements.txt", ["a"]⟩, ⟨"extra.txt", ["b"]⟩] []]

/-- A knowledge base with a node rule for `NodeX` naming an extra file and an
injected requirement. -/
def ruleKB : KB :=
  ⟨[("NodeX", ⟨some ["extra.txt"], some ["injected-pkg"]⟩)], [], []⟩

end SmartResolver

namespace SmartResolver

/-! ### Helper lemmas -/

theorem banList_foldl_mem (active : List String) (M : List ConflictRule)
    (acc : List String) (x : String) :
    (x ∈ M.foldl (fun acc rule => if ruleFires active rule then acc ++ rule.ban else acc) acc) ↔
      x ∈ acc ∨ ∃ r ∈ M, ruleFires active r = true ∧ x ∈ r.ban := by
  induction M generalizing acc with
  | nil => simp
  | cons rule M ih =>
      simp only [List.foldl_cons]
      rw [ih]
      by_cases h : ruleFires active rule = true
      · simp only [h, if_true, List.mem_append, List.mem_cons]
        constructor
        · rintro ((ha | hb) | ⟨r, hr, hf, hx⟩)
          · exact Or.inl ha
          · exact Or.inr ⟨rule, Or.inl rfl, h, hb⟩
          · exact Or.inr ⟨r, Or.inr hr, hf, hx⟩
        · rintro (ha | ⟨r, hr | hr, hf, hx⟩)
          · exact Or.inl (Or.inl ha)
          · exact Or.inl (Or.inr (hr ▸ hx))
          · exact Or.inr ⟨r, hr, hf, hx⟩
      · simp only [h, if_false, List.mem_cons]
        constructor
        · rintro (ha | ⟨r, hr, hf, hx⟩)
          · exact Or.inl ha
          · exact Or.inr ⟨r, Or.inr hr, hf, hx⟩
        · rintro (ha | ⟨r, hr | hr, hf, hx⟩)
          · exact Or.inl ha
          · exact absurd (hr ▸ hf) h
          · exact Or.inr ⟨r, hr, hf, hx⟩

theorem mem_banList (M : List ConflictRule) (active : List String) (x : String) :
    x ∈ banList M active ↔ ∃ r ∈ M, ruleFires active r = true ∧ x ∈ r.ban := by
  rw [banList, banList_foldl_mem]
  simp

theorem ruleFires_mono {A B : List String} (h : ∀ t ∈ A, t ∈ B) (r : ConflictRule) :
    ruleFires A r = true → ruleFires B r = true := by
  simp only [ruleFires, List.any_eq_true]
  rintro ⟨t, ht, hc⟩
  have hmem : t ∈ A := by simpa using hc
  exact ⟨t, ht, by simpa using h t hmem⟩

theorem apply_conflict_matrix_ne_empty {M : List ConflictRule} (hM : M.isEmpty = false)
    (R : List String) :
    apply_conflict_matrix M R =
      R.filter (fun r => !(banList M (R.map get_package_name)).contains (get_package_name r)) := by
  simp [apply_conflict_matrix, hM]

theorem banList_anti (M : List ConflictRule) (R : List String) (p : String → Bool) (x : String)
    (hx : x ∈ banList M ((R.filter p).map get_package_name)) :
    x ∈ banList M (R.map get_package_name) := by
  rw [mem_banList] at hx ⊢
  obtain ⟨rule, hM, hf, hb⟩ := hx
  refine ⟨rule, hM, ?_, hb⟩
  refine ruleFires_mono ?_ rule hf
  intro t ht
  rw [List.mem_map] at ht ⊢
  obtain ⟨s, hs, rfl⟩ := ht
  exact ⟨s, (List.mem_filter.mp hs).1, rfl⟩

theorem banSet_mem_iff (M : List ConflictRule) (R : List String) (x : String) :
    x ∈ banList M (R.map get_package_name) ↔ x ∈ sessionBanSet M R := by
  rw [mem_banList]
  simp only [sessionBanSet, firedRules, List.mem_flatMap, List.mem_filter]
  constructor
  · rintro ⟨r, hM, hf, hb⟩
    exact ⟨r, ⟨hM, hf⟩, hb⟩
  · rintro ⟨r, ⟨hM, hf⟩, hb⟩
    exact ⟨r, hM, hf, hb⟩

/-! ### Claim C2 -/

/-- C2: arbitration is idempotent — re-running `apply_conflict_matrix` with
the same matrix on its own output removes nothing further. -/
theorem arbitrate_idempotent (M : List ConflictRule) (R : List String) :
    apply_conflict_matrix M (apply_conflict_matrix M R) = apply_conflict_matrix M R := by
  cases hM : M.isEmpty with
  | true => simp [apply_conflict_matrix, hM]
  | false =>
      simp only [apply_conflict_matrix_ne_empty hM]
      apply List.filter_eq_self.mpr
      intro r hr
      rw [List.mem_filter] at hr
      simp only [Bool.not_eq_true'] at hr ⊢
      have hnotmem : get_package_name r ∉ banList M (R.map get_package_name) := by
        simpa using hr.2
      have hnot2 : get_package_name r ∉
          banList M ((R.filter (fun r =>
            !(banList M (R.map get_package_name)).contains (get_package_name r))).map
              get_package_name) :=
        fun hmem => hnotmem (banList_anti M R _ _ hmem)
      simpa using hnot2

/-- Instantiation of `arbitrate_idempotent` at a concrete matrix and
requirement list. -/
theorem arbitrate_idempotent_witness :
    apply_conflict_matrix [⟨["torch"], ["tensorflow"]⟩]
        (apply_conflict_matrix [⟨["torch"], ["tensorflow"]⟩] ["torch==2.0", "tensorflow==2.10"])
      = apply_conflict_matrix [⟨["torch"], ["tensorflow"]⟩] ["torch==2.0", "tensorflow==2.10"] :=
  arbitrate_idempotent [⟨["torch"], ["tensorflow"]⟩] ["torch==2.0", "tensorflow==2.10"]

/-! ### Claim C3 -/

theorem apply_conflict_matrix_eq_spec (M : List ConflictRule) (R : List String) :
    apply_conflict_matrix M R = arbitrateSpec M R := by
  cases hM : M.isEmpty with
  | true =>
      have hMnil : M = [] := by simpa using hM
      subst hMnil
      simp [apply_conflict_matrix, arbitrateSpec, sessionBanSet, firedRules]
  | false =>
      rw [apply_conflict_matrix_ne_empty hM, arbitrateSpec]
      apply List.filter_congr
      intro r _
      have hiff := banSet_mem_iff M R (get_package_name r)
      by_cases hmem : get_package_name r ∈ banList M (R.map get_package_name)
      · have h2 : get_package_name r ∈ sessionBanSet M R := hiff.mp hmem
        simp [hmem, h2]
      · have h2 : get_package_name r ∉ sessionBanSet M R := fun h => hmem (hiff.mpr h)
        simp [hmem, h2]

/-- C3: the Conflict Arbiter fires a rule exactly when its trigger set meets
the canonical names of the input, unions the ban sets of all fired rules, and
removes exactly the requirements whose canonical name is in that ban set (a
name that is only a trigger is retained); Scenario B: with matrix
`[{trigger: [torch], ban: [tensorflow]}]` the output retains `torch==2.0` and
drops `tensorflow==2.10`. -/
theorem arbiter_matches_spec :
    (∀ (M : List ConflictRule) (R : List String), apply_conflict_matrix M R = arbitrateSpec M R)
      ∧ apply_conflict_matrix [⟨["torch"], ["tensorflow"]⟩] ["torch==2.0", "tensorflow==2.10"]
          = ["torch==2.0"] :=
  ⟨apply_conflict_matrix_eq_spec, by decide⟩

/-- Instantiation of `arbiter_matches_spec` at a concrete matrix and
requirement list. -/
theorem arbiter_matches_spec_witness :
    apply_conflict_matrix [⟨["torch"], ["tensorflow"]⟩] ["torch==2.0", "tensorflow==2.10"]
      = arbitrateSpec [⟨["torch"], ["tensorflow"]⟩] ["torch==2.0", "tensorflow==2.10"] :=
  arbiter_matches_spec.1 [⟨["torch"], ["tensorflow"]⟩] ["torch==2.0", "tensorflow==2.10"]

/-! ### Claim C5 -/

theorem takeWhile_not_eq_take_findIdx (p : Char → Bool) (l : List Char) :
    l.takeWhile (fun c => !p c) = l.take (l.findIdx p) := by
  induction l with
  | nil => simp
  | cons c l ih =>
      by_cases h : p c = true
      · simp [List.takeWhile_cons, List.findIdx_cons, h]
      · simp [List.takeWhile_cons, List.findIdx_cons, h, ih]

/-- C5 (amended): the parser returns the substring preceding the first
occurrence of one of the characters `< > = ! [ ;`, lower-cased with `-`
normalized to `_`, so `Some-Package` and `some_package` agree; a `~=` line is
cut at its `=` alone, so the leading `~` stays on the name
(`pkg~=1.0 → pkg~`). -/
theorem canonical_name_matches_spec :
    (∀ req : String, get_package_name req = canonicalNameSpec req)
      ∧ get_package_name "Some-Package" = get_package_name "some_package"
      ∧ get_package_name "pkg~=1.0" = "pkg~" := by
  refine ⟨?_, by decide, by decide⟩
  intro req
  unfold get_package_name canonicalNameSpec firstPart cutIndex
  rw [takeWhile_not_eq_take_findIdx]

/-- C5 counterexample: a requirement written with the `~=` operator does not
canonicalize to the bare package name — the `~` survives. -/
theorem tilde_name_not_clean : get_package_name "pkg~=1.0" ≠ "pkg" := by decide

/-- Instantiation of `canonical_name_matches_spec` at a concrete line. -/
theorem canonical_name_matches_spec_witness :
    get_package_name "numpy>=1.24" = canonicalNameSpec "numpy>=1.24" :=
  canonical_name_matches_spec.1 "numpy>=1.24"

/-! ### Claims C6 and C7 -/

theorem mem_of_mem_apply_conflict_matrix {M : List ConflictRule} {L : List String} {x : String}
    (h : x ∈ apply_conflict_matrix M L) : x ∈ L := by
  unfold apply_conflict_matrix at h
  split at h
  · exact h
  · exact (List.mem_filter.mp h).1

theorem merge_manifest_pred {manifest : List (String × List String)}
    {ov : Option (List String)} {x : String} (h : x ∈ merge_manifest manifest ov) :
    (!(overridesTruthy ov && ((ov.getD []).map normalize_name).contains (get_package_name x)))
      = true := by
  unfold merge_manifest at h
  rw [List.mem_flatMap] at h
  obtain ⟨kv, _, hx⟩ := h
  exact (List.mem_filter.mp hx).2

/-- C6: override exclusivity — any element of a strategy's final installer
input whose canonical name is among the normalized `override_packages` can
only have come from the constraints; Scenario C: with overrides `[numpy]` and
constraints `[numpy==1.26.4]` the manifest's `numpy==1.19.0` is excluded and
`numpy==1.26.4` is the whole final input. -/
theorem override_exclusivity :
    (∀ (matrix : List ConflictRule) (manifest : List (String × List String))
        (cs : Option (List String)) (ov : List String) (x : String),
        x ∈ build_final_reqs matrix manifest cs (some ov) →
        (ov.map normalize_name).contains (get_package_name x) = true →
        x ∈ cs.getD [])
      ∧ build_final_reqs [] [("SomeNode", ["numpy==1.19.0"])] (some ["numpy==1.26.4"])
          (some ["numpy"]) = ["numpy==1.26.4"] := by
  constructor
  · intro matrix manifest cs ov x hx hname
    have hov : ov ≠ [] := by
      rintro rfl
      simp at hname
    have hpool : x ∈ apply_conflict_matrix matrix (merge_manifest manifest (some ov)) →
        False := by
      intro hp
      have hm := merge_manifest_pred (mem_of_mem_apply_conflict_matrix hp)
      simp only [Option.getD_some] at hm
      rw [hname] at hm
      have hne : ov.isEmpty = false := by simpa using hov
      simp [overridesTruthy, hne] at hm
    unfold build_final_reqs at hx
    cases cs with
    | none => exact absurd hx hpool
    | some cs' =>
        by_cases hcs : cs'.isEmpty = true
        · simp only [hcs, Bool.not_true, if_false] at hx
          exact absurd hx hpool
        · simp only [Bool.not_eq_true'] at hcs
          simp only [hcs, Bool.not_false, if_true, List.mem_append] at hx
          rcases hx with hx | hx
          · exact absurd hx hpool
          · simpa using hx
  · decide

/-- Instantiation of `override_exclusivity` at Scenario C, with its
hypotheses discharged at that input. -/
theorem override_exclusivity_witness :
    ("numpy==1.26.4" ∈ build_final_reqs [] [("SomeNode", ["numpy==1.19.0"])]
        (some ["numpy==1.26.4"]) (some ["numpy"]))
    ∧ (["numpy"].map normalize_name).contains (get_package_name "numpy==1.26.4") = true
    ∧ "numpy==1.26.4" ∈ (some ["numpy==1.26.4"] : Option (List String)).getD [] :=
  ⟨by decide, by decide,
    override_exclusivity.1 [] [("SomeNode", ["numpy==1.19.0"])] (some ["numpy==1.26.4"])
      ["numpy"] "numpy==1.26.4" (by decide) (by decide)⟩

theorem build_default_eq_filter (matrix : List ConflictRule)
    (manifest : List (String × List String)) :
    build_final_reqs matrix manifest none none
      = (manifest.flatMap (fun kv => kv.2)).filter
          (fun r => !(sessionBanSet matrix (manifest.flatMap (fun kv => kv.2))).contains
            (get_package_name r)) := by
  have hmerge : merge_manifest manifest none = manifest.flatMap (fun kv => kv.2) := by
    simp [merge_manifest, overridesTruthy]
  show apply_conflict_matrix matrix (merge_manifest manifest none) = _
  rw [hmerge, apply_conflict_matrix_eq_spec]
  rfl

/-- C7: the default strategy's candidate pool is the concatenation of every
component's requirement sequence in manifest iteration order, thinned only by
conflict-ban membership and never deduplicated by name: for any matrix, every
requirement string whose canonical name no rule bans keeps its exact number
of occurrences; Scenario A (two conflicting `xformers` pins plus `numpy`)
survives whole both under the empty matrix and under a non-empty matrix whose
rules do not address those packages. -/
theorem pool_not_deduplicated :
    (∀ (matrix : List ConflictRule) (manifest : List (String × List String)),
        build_final_reqs matrix manifest none none
          = (manifest.flatMap (fun kv => kv.2)).filter
              (fun r => !(sessionBanSet matrix (manifest.flatMap (fun kv => kv.2))).contains
                (get_package_name r)))
    ∧ (∀ (matrix : List ConflictRule) (manifest : List (String × List String)) (r : String),
        (∀ rule ∈ matrix, get_package_name r ∉ rule.ban) →
        (build_final_reqs matrix manifest none none).count r
          = (manifest.flatMap (fun kv => kv.2)).count r)
    ∧ build_final_reqs []
        [("NodeA", ["xformers==0.0.20"]), ("NodeB", ["xformers==0.0.23", "numpy"])] none none
        = ["xformers==0.0.20", "xformers==0.0.23", "numpy"]
    ∧ build_final_reqs [⟨["xformers"], ["tensorflow"]⟩]
        [("NodeA", ["xformers==0.0.20"]), ("NodeB", ["xformers==0.0.23", "numpy"])] none none
        = ["xformers==0.0.20", "xformers==0.0.23", "numpy"] := by
  refine ⟨build_default_eq_filter, ?_, by decide, by decide⟩
  intro matrix manifest r h
  rw [build_default_eq_filter, List.count_filter]
  have hnot : get_package_name r ∉ sessionBanSet matrix (manifest.flatMap (fun kv => kv.2)) := by
    intro hmem
    rw [sessionBanSet, List.mem_flatMap] at hmem
    obtain ⟨rule, hrule, hban⟩ := hmem
    exact h rule (List.mem_filter.mp hrule).1 hban
  simp [hnot]

/-- Instantiation of the count conjunct of `pool_not_deduplicated` at
Scenario A's manifest under a non-empty matrix whose only rule does not ban
the duplicated package, with the hypothesis discharged there. -/
theorem pool_not_deduplicated_witness :
    (∀ rule ∈ [(⟨["xformers"], ["tensorflow"]⟩ : ConflictRule)],
        get_package_name "xformers==0.0.23" ∉ rule.ban)
    ∧ (build_final_reqs [⟨["xformers"], ["tensorflow"]⟩]
          [("NodeA", ["xformers==0.0.20"]), ("NodeB", ["xformers==0.0.23", "numpy"])]
          none none).count "xformers==0.0.23"
        = (([("NodeA", ["xformers==0.0.20"]),
            ("NodeB", ["xformers==0.0.23", "numpy"])] : List (String × List String)).flatMap
            (fun kv => kv.2)).count "xformers==0.0.23" :=
  ⟨by decide, pool_not_deduplicated.2.1 [⟨["xformers"], ["tensorflow"]⟩]
      [("NodeA", ["xformers==0.0.20"]), ("NodeB", ["xformers==0.0.23", "numpy"])]
      "xformers==0.0.23" (by decide)⟩

/-! ### Claim C8 -/

/-- C8: exactly one trial is appended per attempted strategy, in the
configured priority order (`naive_merge` first, `dictator_mode` only when
enabled); iteration stops at the first success, which sets status
`"success"`; when every attempted strategy fails the status is `"failed"` and
every enabled strategy has a trial. -/
theorem solve_trial_accounting (install : List String → Bool) (kb : KB)
    (manifest : List (String × List String)) :
    ((solve install ⟨kb, manifest, [], "pending"⟩).status = "success" ∨
      (solve install ⟨kb, manifest, [], "pending"⟩).status = "failed")
    ∧ (solve install ⟨kb, manifest, [], "pending"⟩).trials.map (fun t => t.strategy) =
        (strategyOrder kb).take (solve install ⟨kb, manifest, [], "pending"⟩).trials.length
    ∧ (∀ t ∈ (solve install ⟨kb, manifest, [], "pending"⟩).trials.dropLast, t.success = false)
    ∧ ((solve install ⟨kb, manifest, [], "pending"⟩).status = "success" ↔
        ((solve install ⟨kb, manifest, [], "pending"⟩).trials.getLast?).map
          (fun t => t.success) = some true)
    ∧ ((solve install ⟨kb, manifest, [], "pending"⟩).status = "failed" →
        (solve install ⟨kb, manifest, [], "pending"⟩).trials.length = (strategyOrder kb).length)
    ∧ 1 ≤ (solve install ⟨kb, manifest, [], "pending"⟩).trials.length := by
  cases h1 : install (build_final_reqs kb.conflict_matrix manifest none none) with
  | true => simp [solve, execute_strategy, strategyOrder, h1]
  | false =>
      cases henabled :
          ((dictGet kb.strategies "dictator_mode").getD defaultStrategyConfig).enabled with
      | false => simp [solve, execute_strategy, strategyOrder, h1, henabled]
      | true =>
          cases h2 : install (build_final_reqs kb.conflict_matrix manifest
              ((dictGet kb.strategies "dictator_mode").getD
                defaultStrategyConfig).modern_constraints
              ((dictGet kb.strategies "dictator_mode").getD
                defaultStrategyConfig).override_packages) with
          | true => simp [solve, execute_strategy, strategyOrder, h1, henabled, h2]
          | false => simp [solve, execute_strategy, strategyOrder, h1, henabled, h2]

/-- Instantiation of `solve_trial_accounting` at a concrete installer oracle
and knowledge base. -/
theorem solve_trial_accounting_witness :
    (solve (fun _ => true) ⟨⟨[], [], []⟩, [], [], "pending"⟩).status = "success" ∨
      (solve (fun _ => true) ⟨⟨[], [], []⟩, [], [], "pending"⟩).status = "failed" :=
  (solve_trial_accounting (fun _ => true) ⟨[], [], []⟩ []).1

/-! ### Claim C4 -/

theorem walk_mk (n : String) (fs : List FileEntry) (ds : List Dir) :
    Dir.walk (.mk n fs ds) = (n, fs) :: (ds.map Dir.walk).flatten := by
  rw [Dir.walk]
  rw [List.attach_map_val]

theorem mem_dictSet {m : List (String × List String)} {k : String} {v : List String}
    {kv : String × List String} (h : kv ∈ dictSet m k v) : kv ∈ m ∨ kv = (k, v) := by
  unfold dictSet at h
  split at h
  · rw [List.mem_map] at h
    obtain ⟨kv', hkv', hmap⟩ := h
    by_cases hk : kv'.1 = k
    · right
      rw [if_pos hk] at hmap
      exact hmap.symm
    · left
      rw [if_neg hk] at hmap
      exact hmap ▸ hkv'
  · rw [List.mem_append] at h
    rcases h with h | h
    · exact Or.inl h
    · right
      simpa using h

theorem self_mem_dictSet (m : List (String × List String)) (k : String) (v : List String) :
    (k, v) ∈ dictSet m k v := by
  unfold dictSet
  split
  · next hany =>
      rw [List.any_eq_true] at hany
      obtain ⟨kv, hkv, hk⟩ := hany
      rw [List.mem_map]
      refine ⟨kv, hkv, ?_⟩
      simp only [decide_eq_true_eq] at hk
      rw [if_pos hk]
  · exact List.mem_append_right _ (by simp)

theorem key_mem_dictSet {m : List (String × List String)} {k' : String}
    (h : ∃ w, (k', w) ∈ m) (k : String) (v : List String) :
    ∃ w, (k', w) ∈ dictSet m k v := by
  obtain ⟨w, hw⟩ := h
  by_cases hk : k' = k
  · subst hk
    exact ⟨v, self_mem_dictSet m k' v⟩
  · unfold dictSet
    split
    · refine ⟨w, ?_⟩
      rw [List.mem_map]
      exact ⟨(k', w), hw, by rw [if_neg hk]⟩
    · exact ⟨w, List.mem_append_left _ hw⟩

theorem scanFold_mem {node_rules : List (String × NodeRule)}
    (nodes : List (String × List FileEntry)) (m : List (String × List String))
    {kv : String × List String} (h : kv ∈ nodes.foldl (scanStep node_rules) m) :
    kv ∈ m ∨ ∃ node ∈ nodes, startsWithDot node.1 = false ∧
      scanNodeDeps node_rules node ≠ [] ∧ kv = (node.1, scanNodeDeps node_rules node) := by
  induction nodes generalizing m with
  | nil => exact Or.inl h
  | cons node nodes ih =>
      simp only [List.foldl_cons] at h
      rcases ih _ h with hm | ⟨node', hn', hd, hne, hkv⟩
      · unfold scanStep at hm
        split at hm
        · exact Or.inl hm
        · next hdot =>
            split at hm
            · exact Or.inl hm
            · next hempty =>
                rcases mem_dictSet hm with h1 | h1
                · exact Or.inl h1
                · right
                  refine ⟨node, List.mem_cons_self node nodes, ?_, ?_, h1⟩
                  · simpa using hdot
                  · simpa using hempty
      · exact Or.inr ⟨node', List.mem_cons_of_mem _ hn', hd, hne, hkv⟩

theorem scanStep_preserves_key {node_rules : List (String × NodeRule)}
    {m : List (String × List String)} {k : String} (h : ∃ w, (k, w) ∈ m)
    (node : String × List FileEntry) : ∃ w, (k, w) ∈ scanStep node_rules m node := by
  unfold scanStep
  split
  · exact h
  · split
    · exact h
    · exact key_mem_dictSet h _ _

theorem scanFold_preserves_key {node_rules : List (String × NodeRule)}
    (nodes : List (String × List FileEntry)) {m : List (String × List String)} {k : String}
    (h : ∃ w, (k, w) ∈ m) : ∃ w, (k, w) ∈ nodes.foldl (scanStep node_rules) m := by
  induction nodes generalizing m with
  | nil => exact h
  | cons nd nodes ih => exact ih (scanStep_preserves_key h nd)

theorem scanFold_key {node_rules : List (String × NodeRule)}
    (nodes : List (String × List FileEntry)) (m : List (String × List String))
    {node : String × List FileEntry} (hn : node ∈ nodes)
    (hdot : startsWithDot node.1 = false) (hne : scanNodeDeps node_rules node ≠ []) :
    ∃ w, (node.1, w) ∈ nodes.foldl (scanStep node_rules) m := by
  induction nodes generalizing m with
  | nil => cases hn
  | cons nd nodes ih =>
      simp only [List.foldl_cons]
      rcases List.mem_cons.mp hn with heq | hn'
      · subst heq
        apply scanFold_preserves_key
        have hstep : scanStep node_rules m node = dictSet m node.1 (scanNodeDeps node_rules node) := by
          unfold scanStep
          rw [if_neg (by simp [hdot]), if_neg (by simpa using hne)]
        rw [hstep]
        exact ⟨_, self_mem_dictSet m node.1 _⟩
      · exact ih _ hn'

/-- C4 counterexample: with empty rules, scanning a root whose only immediate
subdirectory `NodeA` has no declarations yields a manifest entry for the
nested directory `inner` — which is not an immediate subdirectory — so the
manifest is not built from immediate subdirectories only. -/
theorem scan_nested_directory_contributes :
    (scan_environment ⟨⟨[], [], []⟩, [], [], "pending"⟩ (some nestedTree)).input_manifest
        = [("inner", ["foo"])]
    ∧ (nestedTree.subdirs.map Dir.name).contains "inner" = false := by
  constructor
  · simp only [scan_environment, nestedTree, walk_mk, List.map_cons, List.map_nil,
      List.flatten_cons, List.flatten_nil]
    decide
  · decide

/-- C4 (amended): the scanner builds the manifest from every directory of the
recursive top-down walk of the component root (the root itself and nested
directories included): each manifest entry is the non-empty dependency list
of a walked directory whose basename does not start with `.` (so hidden
directories contribute no entry themselves, yet their descendants are still
scanned), every such directory contributes an entry, a ruled component has
its `extra_files` read in addition to `requirements.txt` with the `inject`
list prepended, and components resolving to nothing are omitted. -/
theorem scan_walk_characterization :
    (∀ (kb : KB) (root : Dir) (kv : String × List String),
        kv ∈ (scan_environment ⟨kb, [], [], "pending"⟩ (some root)).input_manifest →
          startsWithDot kv.1 = false ∧ kv.2 ≠ []
          ∧ ∃ node ∈ root.walk, node.1 = kv.1 ∧ kv.2 = scanNodeDeps kb.node_rules node)
    ∧ (∀ (kb : KB) (root : Dir) (node : String × List FileEntry), node ∈ root.walk →
        startsWithDot node.1 = false → scanNodeDeps kb.node_rules node ≠ [] →
        ∃ w, (node.1, w) ∈ (scan_environment ⟨kb, [], [], "pending"⟩ (some root)).input_manifest)
    ∧ (scan_environment ⟨ruleKB, [], [], "pending"⟩ (some ruleTree)).input_manifest
        = [("NodeX", ["injected-pkg", "a", "b"])]
    ∧ (scan_environment ⟨⟨[], [], []⟩, [], [], "pending"⟩ (some hiddenTree)).input_manifest
        = [("sub", ["bar"])] := by
  refine ⟨?_, ?_, ?_, ?_⟩
  · intro kb root kv h
    simp only [scan_environment] at h
    rcases scanFold_mem root.walk [] h with hm | ⟨node, hn, hd, hne, hkv⟩
    · cases hm
    · subst hkv
      exact ⟨hd, hne, node, hn, rfl, rfl⟩
  · intro kb root node hn hdot hne
    simp only [scan_environment]
    exact scanFold_key root.walk [] hn hdot hne
  · simp only [scan_environment, ruleTree, walk_mk, List.map_cons, List.map_nil,
      List.flatten_cons, List.flatten_nil]
    decide
  · simp only [scan_environment, hiddenTree, walk_mk, List.map_cons, List.map_nil,
      List.flatten_cons, List.flatten_nil]
    decide

/-- Instantiation of `scan_walk_characterization` at the nested fixture, with
its hypotheses discharged there: the nested directory `inner` is walked,
non-hidden and non-empty, so it owns a manifest entry. -/
theorem scan_walk_characterization_witness :
    ∃ w, ("inner", w) ∈
      (scan_environment ⟨⟨[], [], []⟩, [], [], "pending"⟩ (some nestedTree)).input_manifest :=
  scan_walk_characterization.2.1 ⟨[], [], []⟩ nestedTree
    ("inner", [⟨"requirements.txt", ["foo"]⟩])
    (by
      simp only [nestedTree, walk_mk, List.map_cons, List.map_nil, List.flatten_cons,
        List.flatten_nil]
      decide)
    (by decide) (by decide)

/-! ### Claim C9 -/

theorem solve_no_dictator {a : Agent} (hkb : a.kb.strategies = [])
    (install : List String → Bool) :
    (solve install a).trials = a.trials ++
        [⟨"naive_merge",
          install (build_final_reqs a.kb.conflict_matrix a.input_manifest none none)⟩]
    ∧ ((solve install a).status = "success" ∨ (solve install a).status = "failed") := by
  cases h1 : install (build_final_reqs a.kb.conflict_matrix a.input_manifest none none) with
  | true => simp [solve, execute_strategy, h1]
  | false => simp [solve, execute_strategy, h1, hkb, dictGet, defaultStrategyConfig]

/-- C9 counterexample: when the rules file is absent, `KnowledgeBase._load`
skips the body entirely and prints nothing — no warning is surfaced, against
the claim's "a warning is surfaced" in the absent case. -/
theorem absent_rules_no_warning : (KnowledgeBase_load RulesFile.absent).2 = false := rfl

/-- C9 (amended): if the knowledge-base file is absent or malformed, the
three collections default to empty and loading is never fatal; a warning is
surfaced in the malformed case only (an absent file is skipped silently);
and the session still attempts exactly the default strategy, ending in
success or failure without crashing. -/
theorem rules_load_defaults :
    (KnowledgeBase_load .absent).1 = ⟨[], [], []⟩
    ∧ (KnowledgeBase_load .malformed).1 = ⟨[], [], []⟩
    ∧ (KnowledgeBase_load .malformed).2 = true
    ∧ (∀ (file : RulesFile) (install : List String → Bool) (env : Option Dir),
        (file = .absent ∨ file = .malformed) →
        (solve install (scan_environment (initAgent file) env)).trials.map (fun t => t.strategy)
            = ["naive_merge"]
          ∧ ((solve install (scan_environment (initAgent file) env)).status = "success"
            ∨ (solve install (scan_environment (initAgent file) env)).status = "failed")) := by
  refine ⟨rfl, rfl, rfl, ?_⟩
  intro file install env hfile
  have hkb : (scan_environment (initAgent file) env).kb = ⟨[], [], []⟩ := by
    rcases hfile with rfl | rfl <;> cases env <;> rfl
  have htr : (scan_environment (initAgent file) env).trials = [] := by
    cases env <;> rfl
  have h := solve_no_dictator (a := scan_environment (initAgent file) env)
    (by rw [hkb]) install
  refine ⟨?_, h.2⟩
  rw [h.1, htr]
  simp

/-- Instantiation of `rules_load_defaults` at the absent rules file, with its
hypothesis discharged there. -/
theorem rules_load_defaults_witness :
    (RulesFile.absent = RulesFile.absent ∨ RulesFile.absent = RulesFile.malformed)
    ∧ (solve (fun _ => true) (scan_environment (initAgent .absent) none)).trials.map
        (fun t => t.strategy) = ["naive_merge"] :=
  ⟨Or.inl rfl, (rules_load_defaults.2.2.2 .absent (fun _ => true) none (Or.inl rfl)).1⟩

/-! ### Claim C10 -/

/-- C10 counterexample: on a successful session both the telemetry report and
the recipe export occur, but the report is not after the export — `finalize`
sends telemetry first, so the overall order is scan, strategies, report,
export, not scan, strategies, export, report. -/
theorem telemetry_before_export :
    finalize true ⟨⟨[], [], []⟩, [], [], "success"⟩
        = [Event.report true, Event.exportRecipe, Event.exitWith 0]
    ∧ reportAfterExport (finalize true ⟨⟨[], [], []⟩, [], [], "success"⟩) = false :=
  ⟨rfl, rfl⟩

/-- C10 (amended): telemetry is attempted exactly once per session regardless
of outcome and runs first in the finalize phase — before recipe export, not
after it — and a transport failure is swallowed: the trace, export decision
and exit code do not depend on the transport outcome. -/
theorem telemetry_once_and_swallowed (transport : Bool) (a : Agent) :
    (finalize transport a).countP isReport = 1
    ∧ (finalize transport a).head? = some (Event.report transport)
    ∧ (a.status = "success" →
        finalize transport a = [Event.report transport, Event.exportRecipe, Event.exitWith 0])
    ∧ (a.status ≠ "success" →
        finalize transport a = [Event.report transport, Event.exitWith 1])
    ∧ (∀ t' : Bool, exitCodes (finalize transport a) = exitCodes (finalize t' a)
        ∧ (finalize transport a).any isExport = (finalize t' a).any isExport) := by
  by_cases h : a.status = "success" <;>
    simp [finalize, Telemetry_send, h, exitCodes, isReport, isExport]

/-- Instantiation of `telemetry_once_and_swallowed` at a failed transport on
a successful session, with its hypothesis discharged there. -/
theorem telemetry_once_and_swallowed_witness :
    (⟨⟨[], [], []⟩, [], [], "success"⟩ : Agent).status = "success"
    ∧ finalize false ⟨⟨[], [], []⟩, [], [], "success"⟩
        = [Event.report false, Event.exportRecipe, Event.exitWith 0] :=
  ⟨rfl, (telemetry_once_and_swallowed false ⟨⟨[], [], []⟩, [], [], "success"⟩).2.2.1 rfl⟩

/-! ### Claim C1 -/

/-- C1 (code bug): the `__main__` block constructs a fresh `DependencyAgent`
for each of the three phases, so the agent `finalize` runs on is still
`"pending"`: even with an installer that succeeds on every input the process
exits 1 and never exports; running scan, solve and finalize on a single agent
gives the claimed behavior — status `"success"`, exit code 0 and a recipe
export. -/
theorem main_finalizes_pending_agent :
    (mainRun (fun _ => true) true .absent none).1.status = "pending"
    ∧ (mainRun (fun _ => true) true .absent none).2 = [Event.report true, Event.exitWith 1]
    ∧ (sessionRun (fun _ => true) true .absent none).1.status = "success"
    ∧ (sessionRun (fun _ => true) true .absent none).2
        = [Event.report true, Event.exportRecipe, Event.exitWith 0] :=
  ⟨rfl, rfl, rfl, rfl⟩

end SmartResolver
